/-
Verification of the lmppl CSV wrapper (`src/lmppl-csv.py`).

The script is a linear pipeline: load a sentence column from a CSV file,
score each sentence's perplexity through an external library in batches,
rewrite the CSV with an appended "Perplexity" column, and print the mean.

Shallow embedding conventions:
* A file on disk is modelled by the list of its text lines; opening a file
  by path is modelled by passing the file's lines alongside the path string
  (the path only appears in error messages).
* `csv.reader` / `csv.DictReader` / `csv.DictWriter` are modelled for CSV
  content free of quote characters: a record is one line, split on the
  delimiter character; a blank line parses to the empty record, exactly as
  `csv.reader` yields `[]` for a blank line.
* Python exceptions are modelled by `Except PyErr`; a raised exception
  aborts the function with no partial result.
* Python floats are modelled as exact rationals `ℚ` (the claims only track
  which value ends up where, plus exact arithmetic such as `(2+4)/2 = 3`);
  the perplexity element type is kept generic (`α`) where arithmetic is not
  needed.
* `print` calls are no-ops for the file/return-value model.
* The external scorer `lmppl.LM` is an opaque parameter
  `score : List String → List α` standing for `scorer.get_perplexity`;
  `initialize_language_model` is absorbed into passing `score`.
-/
import Mathlib

set_option autoImplicit false

deriving instance DecidableEq for Except

namespace LmpplCsv

universe u

variable {α : Type u} {β : Type u}

/-! ## Python exceptions -/

/-- The Python exceptions the script can raise, as an error type for
`Except`.  `valueError` carries the message string. -/
inductive PyErr where
  | valueError (msg : String)
  | indexError
  | stopIteration
  | typeError
  | zeroDivisionError
  deriving DecidableEq, Repr

/-! ## CSV parsing model (`csv.reader`)

`csv` module delimiters are single characters.  We split a line on the
delimiter character; this is exact for content without quote characters.
-/

/-- Split a character list at every occurrence of the delimiter `c`.
Always returns at least one (possibly empty) field, like
`"".split(",") == ['']`. -/
def splitOnChar (c : Char) : List Char → List (List Char)
  | [] => [[]]
  | x :: xs =>
    match splitOnChar c xs with
    | [] => [[]]
    | f :: fs => if x = c then [] :: f :: fs else (x :: f) :: fs

/-- Parse one CSV line into its fields. -/
def parseLine (delim : Char) (line : String) : List String :=
  (splitOnChar delim line.toList).map (fun cs => String.mk cs)

/-- Parse a whole file (its list of lines) the way `csv.reader` does:
a blank line yields the empty record `[]`, any other line is split on the
delimiter. -/
def parseCsv (delim : Char) (lines : List String) : List (List String) :=
  lines.map (fun l => if l = "" then [] else parseLine delim l)

/-! ## `load_text_from_csv` -/

/-- The loop `for row in reader: text.append(row[idx])`: collect field
`idx` of every record, raising `IndexError` at the first record that is
too short (`row[idx]` on a short Python list). -/
def readColumn (idx : Nat) : List (List String) → Except PyErr (List String)
  | [] => .ok []
  | row :: rest =>
    match row[idx]? with
    | some v => (readColumn idx rest).map (fun t => v :: t)
    | none => .error .indexError

/-- `load_text_from_csv(csv_file, csv_sentence_header, delimiter=",")`:
`next(reader)` takes the header record (raising `StopIteration` on an
empty file); a missing column raises `ValueError` with the script's
message; otherwise every following record contributes the field at
`header.index(csv_sentence_header)`. -/
def load_text_from_csv (csv_file : String) (lines : List String)
    (csv_sentence_header : String) (delimiter : Char := ',') :
    Except PyErr (List String) :=
  match parseCsv delimiter lines with
  | [] => .error .stopIteration
  | header :: rest =>
    if csv_sentence_header ∈ header then
      readColumn (header.indexOf csv_sentence_header) rest
    else
      .error (.valueError ("The '" ++ csv_sentence_header ++
        "' column does not exist in the CSV file. Please refactor your " ++
        csv_file ++ " to calculate PPL. '" ++ csv_sentence_header ++
        "' header needed."))

/-! ## `calculate_perplexity` -/

/-- Python's `range(0, stop, step)` for a positive `step`: the
`⌈stop/step⌉` multiples of `step` below `stop`, in increasing order
(`len(range(0, stop, step)) == max(0, ceil(stop/step))`). -/
def pyRange (stop step : Nat) : List Nat :=
  List.range' 0 ((stop + step - 1) / step) step

/-- The successive slices `text[i : i + batch_size]` taken by the loop of
`calculate_perplexity`. -/
def sliceBatches (text : List String) (batch_size : Nat) : List (List String) :=
  (pyRange text.length batch_size).map (fun i => (text.drop i).take batch_size)

/-- `calculate_perplexity(scorer, text, batch_size)`: iterate
`for i in range(0, len(text), batch_size)`, score the slice
`text[i : i + batch_size]`, and `extend` the accumulator with the batch's
results. -/
def calculate_perplexity (score : List String → List α)
    (text : List String) (batch_size : Nat) : List α :=
  (pyRange text.length batch_size).foldl
    (fun ppl i => ppl ++ score ((text.drop i).take batch_size)) []

/-! ## `append_perplexity_to_csv`

The function re-reads the file with `csv.DictReader(file)` — note: default
delimiter `,` whatever `load_text_from_csv` was given — and rewrites it
with `csv.DictWriter(file, fieldnames=reader.fieldnames + ["Perplexity"])`.
To be faithful on headers with repeated names (or one already called
"Perplexity") we model Python dicts as insertion-ordered association
lists.  Dict keys are `Option String`: `some k` for a fieldname,
`none` for `DictReader`'s `restkey` (itself `None`), under which extra
fields of an over-long record are stored. -/

/-- A Python value as it can appear in a `DictReader` row dict of this
script: a CSV field (string), the perplexity stored by
`row["Perplexity"] = perplexity` (a float, kept generic), `None` (the
`restval` padding for a short record), or the list of left-over fields
(stored under the `restkey`). -/
inductive PyVal (α : Type u) where
  | str (s : String)
  | num (x : α)
  | pyNone
  | rest (fields : List String)
  deriving DecidableEq

/-- An insertion-ordered Python dict for this script's rows. -/
abbrev PyDict (α : Type u) : Type u := List (Option String × PyVal α)

/-- `d[k] = v`: update in place when `k` is already a key (Python keeps
the key's original position), otherwise append the new binding. -/
def dset (d : PyDict α) (k : Option String) (v : PyVal α) : PyDict α :=
  if ∃ kv ∈ d, kv.1 = k then
    d.map (fun kv => if kv.1 = k then (k, v) else kv)
  else d ++ [(k, v)]

/-- `d.get(k)` / `d[k]`: the value bound to the key, if any. -/
def dget (d : PyDict α) (k : Option String) : Option (PyVal α) :=
  match d with
  | [] => none
  | kv :: d' => if kv.1 = k then some kv.2 else dget d' k

/-- `dict(zip(fieldnames, row))`: bind each fieldname to the record's
field at the same position, later bindings overwriting earlier ones. -/
def dictZipRow (fns : List String) (r : List String) : PyDict α :=
  (fns.zip r).foldl (fun d kv => dset d (some kv.1) (.str kv.2)) []

/-- One `DictReader` row: `d = dict(zip(fieldnames, row))`, then extra
fields go under the `restkey` (`None`) and missing fieldnames are padded
with the `restval` (`None`). -/
def dictReadRow (fns : List String) (r : List String) : PyDict α :=
  if fns.length < r.length then
    dset (dictZipRow fns r) none (.rest (r.drop fns.length))
  else
    (fns.drop r.length).foldl (fun d k => dset d (some k) .pyNone)
      (dictZipRow fns r)

/-- A cell of the rewritten file: either a string (an original field, or
`""` for `None`) or a perplexity value, which `csv.writer` would
stringify. -/
abbrev Cell (α : Type u) : Type u := String ⊕ α

/-- How `csv.writer` renders a dict value into a cell: `None` becomes the
empty string.  (The `rest` case is unreachable: a dict holding it also
holds the `restkey`, which `DictWriter` rejects first.) -/
def cellOf : PyVal α → Cell α
  | .str s => .inl s
  | .num x => .inr x
  | .pyNone => .inl ""
  | .rest _ => .inl ""

/-- `DictWriter.writerow(d)` with `extrasaction='raise'`: a key outside
`fieldnames` raises `ValueError`; otherwise each fieldname's value is
written in order, missing keys filled with the `restval` `''`. -/
def dictWriteRow (fieldnames : List String) (d : PyDict α) :
    Except PyErr (List (Cell α)) :=
  if ∀ kv ∈ d, kv.1 ∈ fieldnames.map some then
    .ok (fieldnames.map (fun k => cellOf ((dget d (some k)).getD (.str ""))))
  else .error (.valueError "dict contains fields not in fieldnames")

/-- The write loop of `append_perplexity_to_csv`, over
`zip(rows, text, perplexities)`: set `row["Perplexity"]` and write the
row.  (The sentence component of each triple is only printed.)  On an
exception the partially written file is not modelled. -/
def writeAll (fieldnames : List String) :
    List (PyDict α × String × α) → Except PyErr (List (List (Cell α)))
  | [] => .ok []
  | x :: xs =>
    match dictWriteRow fieldnames (dset x.1 (some "Perplexity") (.num x.2.2)) with
    | .error e => .error e
    | .ok cells => (writeAll fieldnames xs).map (fun rs => cells :: rs)

/-- The rewritten CSV file, structurally: its header record and its data
records' cells. -/
structure CsvOut (α : Type u) : Type u where
  header : List String
  rows : List (List (Cell α))
  deriving DecidableEq

/-- The part of `append_perplexity_to_csv` past the `DictReader` parse:
`reader.fieldnames` is the first record (on an empty file it is `None`
and `None + ["Perplexity"]` raises `TypeError`); `rows = list(reader)`
skips blank records; then each zipped row is written under
`fieldnames + ["Perplexity"]`. -/
def appendToParsed (parsed : List (List String)) (text : List String)
    (ppls : List α) : Except PyErr (CsvOut α) :=
  match parsed with
  | [] => .error .typeError
  | fns :: rest =>
    let rows := (rest.filter (fun r => r ≠ [])).map (dictReadRow (α := α) fns)
    let fieldnames := fns ++ ["Perplexity"]
    (writeAll fieldnames (rows.zip (text.zip ppls))).map
      (fun rs => CsvOut.mk fieldnames rs)

/-- `append_perplexity_to_csv(csv_file, text, perplexities)`: re-read the
file with `csv.DictReader` — at the default comma delimiter, there being
no delimiter parameter — and rewrite it with the appended "Perplexity"
column. -/
def append_perplexity_to_csv (lines : List String) (text : List String)
    (ppls : List α) : Except PyErr (CsvOut α) :=
  appendToParsed (parseCsv ',' lines) text ppls

/-! ## `calculate_average_perplexity` -/

/-- `sum(perplexities) / len(perplexities)`: Python raises
`ZeroDivisionError` when the list is empty. -/
def calculate_average_perplexity (perplexities : List ℚ) : Except PyErr ℚ :=
  if perplexities.length = 0 then .error .zeroDivisionError
  else .ok (perplexities.sum / (perplexities.length : ℚ))

/-! ## `main` and the command line -/

/-- The `[Config]` section of the INI file, already parsed: the values
`main` extracts with `config.get` / `config.getint`.  `delimiter` is
`none` when the key is absent (`fallback=","` applies). -/
structure Config : Type where
  csv_file : String
  csv_sentence_header : String
  model_name : String
  batch_size : Nat
  delimiter : Option Char

/-- `main(config_file)`, with the config already parsed, the CSV file's
content passed as `fileLines`, and the external scorer as `score`
(standing for `initialize_language_model(model_name)`'s handle): load the
column with the config delimiter (falling back to `,`), score it in
batches, rewrite the file, compute the average.  Returns the rewritten
file and the printed average. -/
def mainRun (score : List String → List ℚ) (cfg : Config)
    (fileLines : List String) : Except PyErr (CsvOut ℚ × ℚ) :=
  let delim := cfg.delimiter.getD ','
  match load_text_from_csv cfg.csv_file fileLines cfg.csv_sentence_header delim with
  | .error e => .error e
  | .ok text =>
    let ppls := calculate_perplexity score text cfg.batch_size
    match append_perplexity_to_csv fileLines text ppls with
    | .error e => .error e
    | .ok fileOut =>
      match calculate_average_perplexity ppls with
      | .error e => .error e
      | .ok avg => .ok (fileOut, avg)

/-- The `if __name__ == "__main__"` block: `--delimiter` is parsed into
`args.delimiter` but the call is `main(args.config_file)`, so the flag is
dropped on the floor. -/
def runCli (score : List String → List ℚ) (cfg : Config)
    (fileLines : List String) (cliDelimiter : Char) :
    Except PyErr (CsvOut ℚ × ℚ) :=
  mainRun score cfg fileLines

/-! ## Helper lemmas -/

/-- When every record is long enough, the reading loop succeeds and
returns exactly field `idx` of every record, in order. -/
theorem readColumn_ok (idx : Nat) :
    ∀ rows : List (List String), (∀ r ∈ rows, idx < r.length) →
      readColumn idx rows = .ok (rows.map (fun r => r.getD idx "")) := by
  intro rows
  induction rows with
  | nil => intro _; rfl
  | cons r rest ih =>
    intro h
    have hr : idx < r.length := h r (List.mem_cons_self r rest)
    have hv : r[idx]? = some (r.getD idx "") := by
      rw [List.getD_eq_getElem?_getD, List.getElem?_eq_getElem hr]
      rfl
    simp only [readColumn, hv, ih (fun x hx => h x (List.mem_cons_of_mem _ hx)),
      Except.map, List.map]

/-- Accumulating a list of results with `++`, as the `ppl.extend(...)`
loop does, concatenates the per-index results in iteration order. -/
theorem foldl_append_eq_flatten {γ : Type} {δ : Type u} (f : γ → List δ) :
    ∀ (idxs : List γ) (init : List δ),
      idxs.foldl (fun acc i => acc ++ f i) init = init ++ (idxs.map f).flatten := by
  intro idxs
  induction idxs with
  | nil => intro init; simp
  | cons i rest ih =>
    intro init
    simp only [List.foldl_cons, List.map_cons, List.flatten_cons, ih,
      List.append_assoc]

/-- `range(0, 0, B)` is empty. -/
theorem pyRange_zero (B : Nat) (hB : 0 < B) : pyRange 0 B = [] := by
  have h : (0 + B - 1) / B = 0 := Nat.div_eq_of_lt (by omega)
  unfold pyRange
  rw [h]
  rfl

/-- One unfolding of the slicing loop: on a non-empty list the first
slice is `text[0 : B]` and the remaining slices are the slices of
`text[B:]`. -/
theorem sliceBatches_cons (B : Nat) (hB : 0 < B) (text : List String)
    (ht : text ≠ []) :
    sliceBatches text B = text.take B :: sliceBatches (text.drop B) B := by
  have hL : 0 < text.length := List.length_pos.mpr ht
  have hceil : (text.length + B - 1) / B = (text.length - 1) / B + 1 := by
    have h1 : text.length + B - 1 = (text.length - 1) + B := by omega
    rw [h1, Nat.add_div_right _ hB]
  have hnum : (text.length - B + B - 1) / B = (text.length - 1) / B := by
    rcases le_or_lt B text.length with h | h
    · have : text.length - B + B - 1 = text.length - 1 := by omega
      rw [this]
    · have h0 : text.length - B = 0 := by omega
      rw [h0]
      rw [Nat.div_eq_of_lt (by omega), Nat.div_eq_of_lt (by omega)]
  unfold sliceBatches pyRange
  rw [hceil, List.range'_succ, List.map_cons, List.drop_zero]
  congr 1
  have hmap : List.range' (0 + B) ((text.length - 1) / B) B =
      (List.range' 0 ((text.length - 1) / B) B).map (B + ·) := by
    rw [List.map_add_range', Nat.zero_add, Nat.add_zero]
  rw [hmap, List.map_map, List.length_drop, hnum]
  apply List.map_congr_left
  intro i _
  simp only [Function.comp_apply]
  rw [List.drop_drop]

/-- The slices are a partition of the input: concatenated back in order
they give the input list. -/
theorem sliceBatches_flatten (B : Nat) (hB : 0 < B) (text : List String) :
    (sliceBatches text B).flatten = text := by
  suffices h : ∀ (L : Nat) (t : List String), t.length = L →
      (sliceBatches t B).flatten = t by
    exact h text.length text rfl
  intro L
  induction L using Nat.strong_induction_on with
  | _ L ih =>
    intro t ht
    cases t with
    | nil => simp [sliceBatches, pyRange_zero B hB]
    | cons a tl =>
      rw [sliceBatches_cons B hB _ (by simp), List.flatten_cons]
      have hlt : ((a :: tl).drop B).length < L := by
        rw [List.length_drop]
        simp only [List.length_cons] at ht ⊢
        omega
      rw [ih _ hlt _ rfl, List.take_append_drop]

/-- Setting a key that is not yet bound appends the binding. -/
theorem dset_append {d : PyDict α} {k : Option String} (v : PyVal α)
    (h : ∀ kv ∈ d, kv.1 ≠ k) : dset d k v = d ++ [(k, v)] := by
  unfold dset
  rw [if_neg]
  rintro ⟨kv, hkv, hk⟩
  exact h kv hkv hk

theorem dget_cons_self {kv : Option String × PyVal α} {d : PyDict α} :
    dget (kv :: d) kv.1 = some kv.2 := by
  simp [dget]

theorem dget_cons_ne {kv : Option String × PyVal α} {d : PyDict α}
    {k : Option String} (h : kv.1 ≠ k) : dget (kv :: d) k = dget d k := by
  simp [dget, h]

/-- Lookup skips a prefix that does not bind the key. -/
theorem dget_append_right {d₁ d₂ : PyDict α} {k : Option String}
    (h : ∀ kv ∈ d₁, kv.1 ≠ k) : dget (d₁ ++ d₂) k = dget d₂ k := by
  induction d₁ with
  | nil => rfl
  | cons kv d₁ ih =>
    rw [List.cons_append, dget_cons_ne (h kv (List.mem_cons_self kv d₁))]
    exact ih (fun x hx => h x (List.mem_cons_of_mem _ hx))

/-- Every key of `dset d k v` is `k` or a key of `d`. -/
theorem mem_keys_dset {d : PyDict α} {k : Option String} {v : PyVal α}
    {kv : Option String × PyVal α} (h : kv ∈ dset d k v) :
    kv.1 = k ∨ kv.1 ∈ d.map Prod.fst := by
  unfold dset at h
  split at h
  · rcases List.mem_map.mp h with ⟨x, hx, rfl⟩
    by_cases hxk : x.1 = k
    · simp [hxk]
    · simp only [if_neg hxk]
      exact Or.inr (List.mem_map.mpr ⟨x, hx, rfl⟩)
  · rcases List.mem_append.mp h with h' | h'
    · exact Or.inr (List.mem_map.mpr ⟨kv, h', rfl⟩)
    · simp at h'
      simp [h']

/-- Keys produced by the `dict(zip(fieldnames, row))` fold come from the
accumulator or from the zipped fieldnames. -/
theorem mem_keys_foldl_dset_str :
    ∀ (ps : List (String × String)) (acc : PyDict α)
      (kv : Option String × PyVal α),
      kv ∈ ps.foldl (fun d q => dset d (some q.1) (.str q.2)) acc →
      kv.1 ∈ acc.map Prod.fst ∨ kv.1 ∈ ps.map (fun q => some q.1) := by
  intro ps
  induction ps with
  | nil =>
    intro acc kv h
    exact Or.inl (List.mem_map.mpr ⟨kv, h, rfl⟩)
  | cons p ps ih =>
    intro acc kv h
    rcases ih (dset acc (some p.1) (.str p.2)) kv h with h' | h'
    · rcases List.mem_map.mp h' with ⟨x, hx, hxk⟩
      rcases mem_keys_dset hx with h'' | h''
      · rw [← hxk, h'']
        exact Or.inr (List.mem_map.mpr ⟨p, List.mem_cons_self p ps, rfl⟩)
      · left
        rw [← hxk]
        exact h''
    · simp [h']

/-- Keys produced by the `restval` padding fold come from the accumulator
or from the padded fieldnames. -/
theorem mem_keys_foldl_dset_pad :
    ∀ (ps : List String) (acc : PyDict α)
      (kv : Option String × PyVal α),
      kv ∈ ps.foldl (fun d k => dset d (some k) .pyNone) acc →
      kv.1 ∈ acc.map Prod.fst ∨ kv.1 ∈ ps.map some := by
  intro ps
  induction ps with
  | nil =>
    intro acc kv h
    exact Or.inl (List.mem_map.mpr ⟨kv, h, rfl⟩)
  | cons p ps ih =>
    intro acc kv h
    rcases ih (dset acc (some p) .pyNone) kv h with h' | h'
    · rcases List.mem_map.mp h' with ⟨x, hx, hxk⟩
      rcases mem_keys_dset hx with h'' | h''
      · rw [← hxk, h'']
        exact Or.inr (List.mem_map.mpr ⟨p, List.mem_cons_self p ps, rfl⟩)
      · left
        rw [← hxk]
        exact h''
    · simp [h']

/-- Every key of a `DictReader` row over a record no longer than the
header is one of the fieldnames. -/
theorem mem_keys_dictReadRow {fns : List String} {r : List String}
    (hle : r.length ≤ fns.length) {kv : Option String × PyVal α}
    (h : kv ∈ dictReadRow (α := α) fns r) : kv.1 ∈ fns.map some := by
  unfold dictReadRow at h
  rw [if_neg (by omega)] at h
  rcases mem_keys_foldl_dset_pad _ _ _ h with h' | h'
  · rcases List.mem_map.mp h' with ⟨x, hx, hxk⟩
    unfold dictZipRow at hx
    rcases mem_keys_foldl_dset_str _ _ _ hx with h'' | h''
    · simp at h''
    · rw [← hxk]
      rcases List.mem_map.mp h'' with ⟨q, hq, hqk⟩
      rw [← hqk]
      exact List.mem_map.mpr ⟨q.1, (List.of_mem_zip hq).1, rfl⟩
  · rcases List.mem_map.mp h' with ⟨x, hx, hxk⟩
    rw [← hxk]
    exact List.mem_map.mpr ⟨x, List.mem_of_mem_drop hx, rfl⟩

/-- A left fold of `dset`s over fresh, pairwise-distinct keys is a plain
append of the bindings in order. -/
theorem foldl_dset_fresh :
    ∀ (ps : List (String × String)) (acc : PyDict α),
      (ps.map Prod.fst).Nodup →
      (∀ p ∈ ps, ∀ kv ∈ acc, kv.1 ≠ some p.1) →
      ps.foldl (fun d q => dset d (some q.1) (.str q.2)) acc =
        acc ++ ps.map (fun q => (some q.1, PyVal.str q.2)) := by
  intro ps
  induction ps with
  | nil => intro acc _ _; simp
  | cons p ps ih =>
    intro acc hnd hfresh
    simp only [List.map_cons, List.nodup_cons] at hnd
    rw [List.foldl_cons,
      dset_append (PyVal.str p.2) (hfresh p (List.mem_cons_self p ps)),
      ih _ hnd.2 ?_, List.append_assoc, List.singleton_append, List.map_cons]
    intro q hq kv hkv
    rcases List.mem_append.mp hkv with h' | h'
    · exact hfresh q (List.mem_cons_of_mem _ hq) kv h'
    · simp only [List.mem_singleton] at h'
      rw [h']
      simp only [ne_eq, Option.some_inj]
      intro hc
      exact hnd.1 (by rw [hc]; exact List.mem_map.mpr ⟨q, hq, rfl⟩)

/-- Reading the fieldnames back out of a freshly built row dict (distinct
fieldnames, record of matching length) recovers the record's fields, no
matter what bindings follow. -/
theorem map_dget_embed :
    ∀ (fns r : List String) (tail : PyDict α), fns.Nodup →
      r.length = fns.length →
      fns.map (fun k =>
        dget ((fns.zip r).map (fun q => (some q.1, PyVal.str q.2)) ++ tail)
          (some k)) =
      r.map (fun v => some (PyVal.str v)) := by
  intro fns
  induction fns with
  | nil =>
    intro r tail _ hlen
    rw [List.length_nil, List.length_eq_zero] at hlen
    rw [hlen]
    rfl
  | cons k ks ih =>
    intro r tail hnd hlen
    cases r with
    | nil => simp at hlen
    | cons v vs =>
      simp only [List.length_cons, Nat.add_right_cancel_iff] at hlen
      simp only [List.nodup_cons] at hnd
      simp only [List.zip_cons_cons, List.map_cons, List.cons_append]
      congr 1
      · simp [dget]
      · rw [← ih vs tail hnd.2 hlen]
        apply List.map_congr_left
        intro k' hk'
        have hne : ((some k, PyVal.str v) : Option String × PyVal α).1 ≠ some k' := by
          simp only [ne_eq, Option.some_inj]
          intro hc
          exact hnd.1 (hc ▸ hk')
        rw [dget_cons_ne hne]

/-- With pairwise-distinct fieldnames and a record of matching length the
row dict is literally the zip of the two lists. -/
theorem dictReadRow_eq_zip {fns r : List String} (hnd : fns.Nodup)
    (hlen : r.length = fns.length) :
    dictReadRow (α := α) fns r =
      (fns.zip r).map (fun q => (some q.1, PyVal.str q.2)) := by
  unfold dictReadRow
  rw [if_neg (by omega), hlen, List.drop_length, List.foldl_nil]
  unfold dictZipRow
  rw [foldl_dset_fresh _ _ ?_ (by simp), List.nil_append]
  rw [List.map_fst_zip fns r (by omega)]
  exact hnd

/-- Writing one row whose dict came from a clean header (distinct names,
none called "Perplexity") emits the original fields followed by the
perplexity value. -/
theorem row_roundtrip (fns : List String) (r : List String) (p : α)
    (hnd : fns.Nodup) (hnP : "Perplexity" ∉ fns)
    (hlen : r.length = fns.length) :
    dictWriteRow (fns ++ ["Perplexity"])
      (dset (dictReadRow fns r) (some "Perplexity") (.num p)) =
      .ok (r.map Sum.inl ++ [Sum.inr p]) := by
  have hfresh : ∀ kv ∈ (fns.zip r).map
      (fun q => (some q.1, PyVal.str (α := α) q.2)), kv.1 ≠ some "Perplexity" := by
    intro kv hkv
    rcases List.mem_map.mp hkv with ⟨q, hq, rfl⟩
    simp only [ne_eq, Option.some_inj]
    intro hc
    exact hnP (hc ▸ (List.of_mem_zip hq).1)
  have hD : dset (dictReadRow fns r) (some "Perplexity") (.num p) =
      (fns.zip r).map (fun q => (some q.1, PyVal.str q.2)) ++
        [(some "Perplexity", PyVal.num p)] := by
    rw [dictReadRow_eq_zip hnd hlen]
    exact dset_append _ hfresh
  rw [hD]
  unfold dictWriteRow
  rw [if_pos ?hkeys]
  case hkeys =>
    intro kv hkv
    rcases List.mem_append.mp hkv with h' | h'
    · rcases List.mem_map.mp h' with ⟨q, hq, rfl⟩
      exact List.mem_map.mpr
        ⟨q.1, List.mem_append.mpr (Or.inl (List.of_mem_zip hq).1), rfl⟩
    · simp only [List.mem_singleton] at h'
      rw [h']
      exact List.mem_map.mpr ⟨"Perplexity", by simp, rfl⟩
  refine congrArg Except.ok ?_
  rw [List.map_append]
  refine congr (congrArg HAppend.hAppend ?_) ?_
  · have hmap := map_dget_embed fns r
      [(some "Perplexity", PyVal.num p)] hnd hlen
    calc fns.map (fun k => cellOf
          ((dget ((fns.zip r).map (fun q => (some q.1, PyVal.str q.2)) ++
            [(some "Perplexity", PyVal.num p)]) (some k)).getD (.str ""))) =
        (fns.map (fun k =>
          dget ((fns.zip r).map (fun q => (some q.1, PyVal.str q.2)) ++
            [(some "Perplexity", PyVal.num p)]) (some k))).map
          (fun o => cellOf (o.getD (.str ""))) := by
          rw [List.map_map]
          rfl
      _ = (r.map (fun v => some (PyVal.str v))).map
            (fun o => cellOf (o.getD (.str ""))) := by rw [hmap]
      _ = r.map Sum.inl := by rw [List.map_map]; rfl
  · simp only [List.map_cons, List.map_nil]
    rw [dget_append_right hfresh]
    rfl

/-- Under the clean-header hypotheses the whole write loop succeeds and
produces exactly the original records with their perplexities appended. -/
theorem writeAll_exact (fns : List String) (hnd : fns.Nodup)
    (hnP : "Perplexity" ∉ fns) :
    ∀ (R : List (List String)) (text : List String) (ppls : List α),
      (∀ r ∈ R, r.length = fns.length) →
      text.length = R.length → ppls.length = R.length →
      writeAll (fns ++ ["Perplexity"])
          ((R.map (dictReadRow fns)).zip (text.zip ppls)) =
        .ok ((R.zip ppls).map (fun rp => rp.1.map Sum.inl ++ [Sum.inr rp.2])) := by
  intro R
  induction R with
  | nil => intro text ppls _ _ _; rfl
  | cons r R ih =>
    intro text ppls hwf hT hP
    cases text with
    | nil => simp at hT
    | cons s text =>
      cases ppls with
      | nil => simp at hP
      | cons p ppls =>
        simp only [List.length_cons, Nat.add_right_cancel_iff] at hT hP
        simp only [List.map_cons, List.zip_cons_cons]
        unfold writeAll
        rw [row_roundtrip fns r p hnd hnP (hwf r (List.mem_cons_self r R))]
        rw [ih text ppls (fun x hx => hwf x (List.mem_cons_of_mem _ hx)) hT hP]
        rfl

/-- Whenever every zipped row dict only uses fieldname keys, the write
loop raises nothing and writes one output record per zipped triple. -/
theorem writeAll_ok (fns : List String) :
    ∀ xs : List (PyDict α × String × α),
      (∀ x ∈ xs, ∀ kv ∈ x.1, kv.1 ∈ fns.map some) →
      ∃ out, writeAll (fns ++ ["Perplexity"]) xs = .ok out ∧
        out.length = xs.length := by
  intro xs
  induction xs with
  | nil => intro _; exact ⟨[], rfl, rfl⟩
  | cons x xs ih =>
    intro h
    have hcond : ∀ kv ∈ dset x.1 (some "Perplexity") (.num x.2.2),
        kv.1 ∈ (fns ++ ["Perplexity"]).map some := by
      intro kv hkv
      rcases mem_keys_dset hkv with h' | h'
      · rw [h']
        exact List.mem_map.mpr ⟨"Perplexity", by simp, rfl⟩
      · rcases List.mem_map.mp h' with ⟨k', hk', hkk⟩
        rcases List.mem_map.mp
          (h x (List.mem_cons_self x xs) k' hk') with ⟨f, hf, hfk⟩
        rw [← hkk, ← hfk]
        exact List.mem_map.mpr ⟨f, List.mem_append.mpr (Or.inl hf), rfl⟩
    obtain ⟨out, hout, hlen⟩ :=
      ih (fun y hy => h y (List.mem_cons_of_mem _ hy))
    refine ⟨(fns ++ ["Perplexity"]).map (fun k =>
      cellOf ((dget (dset x.1 (some "Perplexity") (.num x.2.2)) (some k)).getD
        (.str ""))) :: out, ?_, by simp [hlen]⟩
    unfold writeAll dictWriteRow
    rw [if_pos hcond, hout]
    rfl

/-- The write loop never reads the sentence component of the zipped
triples: text lists of equal length give identical output. -/
theorem writeAll_text_irrelevant (fieldnames : List String) :
    ∀ (rows : List (PyDict α)) (t₁ t₂ : List String) (ppls : List α),
      t₁.length = t₂.length →
      writeAll fieldnames (rows.zip (t₁.zip ppls)) =
        writeAll fieldnames (rows.zip (t₂.zip ppls)) := by
  intro rows
  induction rows with
  | nil => intro t₁ t₂ ppls _; rfl
  | cons d rows ih =>
    intro t₁ t₂ ppls h
    cases t₁ with
    | nil =>
      cases t₂ with
      | nil => rfl
      | cons b t₂ => simp at h
    | cons a t₁ =>
      cases t₂ with
      | nil => simp at h
      | cons b t₂ =>
        simp only [List.length_cons, Nat.add_right_cancel_iff] at h
        cases ppls with
        | nil => rfl
        | cons p ppls =>
          simp only [List.zip_cons_cons]
          unfold writeAll
          rw [ih t₁ t₂ ppls h]

/-! ## Claim theorems -/

/-- C1: with a positive batch size `B` and a scorer returning one value
per input sentence, `calculate_perplexity` concatenates the scorer's
results over the `⌈L/B⌉` contiguous slices of the input, each of size at
most `B`; the slices partition the input in order, the output has length
`L`, and for a pointwise scorer the output is the pointwise image of the
input (no element reordered or dropped). -/
theorem calculate_perplexity_batches_spec {α : Type u}
    (score : List String → List α) (text : List String) (B : Nat)
    (hB : 0 < B) (hscore : ∀ l, (score l).length = l.length) :
    calculate_perplexity score text B = ((sliceBatches text B).map score).flatten
    ∧ (sliceBatches text B).length = (text.length + B - 1) / B
    ∧ (∀ b ∈ sliceBatches text B, b.length ≤ B)
    ∧ (sliceBatches text B).flatten = text
    ∧ (calculate_perplexity score text B).length = text.length
    ∧ (∀ f : String → α, (∀ l, score l = l.map f) →
        calculate_perplexity score text B = text.map f) := by
  have hfold : calculate_perplexity score text B =
      ((sliceBatches text B).map score).flatten := by
    unfold calculate_perplexity sliceBatches
    rw [foldl_append_eq_flatten (fun i => score ((text.drop i).take B)),
      List.map_map, List.nil_append]
    rfl
  have hflat : (sliceBatches text B).flatten = text :=
    sliceBatches_flatten B hB text
  refine ⟨hfold, ?_, ?_, hflat, ?_, ?_⟩
  · simp [sliceBatches, pyRange]
  · intro b hb
    rcases List.mem_map.mp hb with ⟨i, _, rfl⟩
    rw [List.length_take]
    exact min_le_left _ _
  · rw [hfold, List.length_flatten, List.map_map]
    have hcong : (sliceBatches text B).map (List.length ∘ score) =
        (sliceBatches text B).map List.length :=
      List.map_congr_left (fun b _ => hscore b)
    rw [hcong, ← List.length_flatten, hflat]
  · intro f hf
    have hmap : (sliceBatches text B).map score =
        (sliceBatches text B).map (List.map f) :=
      List.map_congr_left (fun b _ => hf b)
    rw [hfold, hmap, ← List.map_flatten, hflat]

/-- Witness for C1: three sentences, batch size 2, constant scorer. -/
theorem calculate_perplexity_batches_spec_witness :
    calculate_perplexity (fun l => l.map (fun _ => (1 : ℚ))) ["a", "b", "c"] 2 =
      ["a", "b", "c"].map (fun _ => (1 : ℚ)) :=
  (calculate_perplexity_batches_spec (fun l => l.map (fun _ => (1 : ℚ)))
    ["a", "b", "c"] 2 (by decide) (fun l => by simp)).2.2.2.2.2
    (fun _ => (1 : ℚ)) (fun l => rfl)

/-- C3: for a CSV whose header contains the target column and whose N
data records all reach that column, `load_text_from_csv` returns exactly
the N values of that column, in row order. -/
theorem load_text_from_csv_returns_column
    (csv_file : String) (lines : List String) (hdr : String) (delim : Char)
    (header : List String) (rest : List (List String))
    (hparse : parseCsv delim lines = header :: rest)
    (hmem : hdr ∈ header)
    (hwf : ∀ r ∈ rest, header.indexOf hdr < r.length) :
    load_text_from_csv csv_file lines hdr delim =
      .ok (rest.map (fun r => r.getD (header.indexOf hdr) ""))
    ∧ (rest.map (fun r => r.getD (header.indexOf hdr) "")).length = rest.length := by
  refine ⟨?_, by simp⟩
  unfold load_text_from_csv
  rw [hparse]
  dsimp only
  rw [if_pos hmem]
  exact readColumn_ok _ rest hwf

/-- Witness for C3 on a concrete file: header `id,sentence`, two data
rows, column `sentence`. -/
theorem load_text_from_csv_returns_column_witness :
    load_text_from_csv "f.csv" ["id,sentence", "1,a", "2,b"] "sentence" =
      .ok ([["1", "a"], ["2", "b"]].map
        (fun r => r.getD (["id", "sentence"].indexOf "sentence") "")) ∧
    ([["1", "a"], ["2", "b"]].map
        (fun r => r.getD (["id", "sentence"].indexOf "sentence") "")).length = 2 :=
  load_text_from_csv_returns_column "f.csv" ["id,sentence", "1,a", "2,b"]
    "sentence" ',' ["id", "sentence"] [["1", "a"], ["2", "b"]]
    (by decide) (by decide) (by decide)

/-- C4: when the header lacks the target column, `load_text_from_csv`
raises `ValueError` with the script's message and produces no list. -/
theorem load_text_from_csv_missing_column_error
    (csv_file : String) (lines : List String) (hdr : String) (delim : Char)
    (header : List String) (rest : List (List String))
    (hparse : parseCsv delim lines = header :: rest)
    (habs : hdr ∉ header) :
    load_text_from_csv csv_file lines hdr delim =
      .error (.valueError ("The '" ++ hdr ++
        "' column does not exist in the CSV file. Please refactor your " ++
        csv_file ++ " to calculate PPL. '" ++ hdr ++ "' header needed.")) := by
  unfold load_text_from_csv
  rw [hparse]
  dsimp only
  rw [if_neg habs]

/-- Witness for C4: asking for column `c` in a file whose header is
`a,b`. -/
theorem load_text_from_csv_missing_column_error_witness :
    load_text_from_csv "f.csv" ["a,b", "x,y"] "c" =
      .error (.valueError ("The 'c' column does not exist in the CSV file. Please refactor your f.csv to calculate PPL. 'c' header needed.")) := by
  rw [load_text_from_csv_missing_column_error "f.csv" ["a,b", "x,y"] "c" ','
    ["a", "b"] [["x", "y"]] (by decide) (by decide)]
  rfl

/-- C5: `calculate_average_perplexity` is `sum / length` on every
non-empty list (in particular `[2, 4] ↦ 3`), and raises
`ZeroDivisionError` exactly on the empty list. -/
theorem calculate_average_perplexity_spec :
    (∀ l : List ℚ, l ≠ [] →
      calculate_average_perplexity l = .ok (l.sum / (l.length : ℚ)))
    ∧ (∀ l : List ℚ,
        calculate_average_perplexity l = .error .zeroDivisionError ↔ l = [])
    ∧ calculate_average_perplexity [2, 4] = .ok 3 := by
  refine ⟨?_, ?_, ?_⟩
  · intro l hl
    cases l with
    | nil => exact absurd rfl hl
    | cons a t => simp [calculate_average_perplexity]
  · intro l
    cases l with
    | nil => simp [calculate_average_perplexity]
    | cons a t => simp [calculate_average_perplexity]
  · simp [calculate_average_perplexity]
    norm_num

/-- Witness for C5 at `[2, 4]`. -/
theorem calculate_average_perplexity_spec_witness :
    ([(2 : ℚ), 4] ≠ []) ∧
    calculate_average_perplexity [2, 4] =
      .ok (([(2 : ℚ), 4]).sum / (([(2 : ℚ), 4]).length : ℚ)) :=
  ⟨by simp, calculate_average_perplexity_spec.1 [2, 4] (by simp)⟩

/-- C9: a concrete CSV whose header `a,b` contains the target column `b`
but whose second data record `x` is too short: `load_text_from_csv`
raises `IndexError` (after having read the first record) instead of
returning a list — `row[index]` is unguarded. -/
theorem load_text_from_csv_short_row_index_error :
    load_text_from_csv "data.csv" ["a,b", "p,q", "x"] "b" =
      .error .indexError := by
  decide

/-- C2 fails as stated: on a CSV whose header already contains a
"Perplexity" column (and a repeated name), the rewrite changes original
column values — the pre-existing Perplexity value `9` is overwritten and
the repeated column collapses — instead of leaving all original columns
unchanged with one appended column (which would give the row
`["1", "2", "9", 7]`). -/
theorem append_perplexity_duplicate_header_cex :
    append_perplexity_to_csv ["a,a,Perplexity", "1,2,9"] ["s"] [(7 : ℚ)] =
      .ok (CsvOut.mk ["a", "a", "Perplexity", "Perplexity"]
        [[Sum.inl "2", Sum.inl "2", Sum.inr 7, Sum.inr 7]])
    ∧ ([[Sum.inl "2", Sum.inl "2", Sum.inr (7 : ℚ), Sum.inr 7]] :
        List (List (Cell ℚ))) ≠
      [[Sum.inl "1", Sum.inl "2", Sum.inl "9", Sum.inr 7]] := by
  refine ⟨by decide, by decide⟩

/-- C2 (amended): for an input CSV whose header names are pairwise
distinct and do not include "Perplexity", whose data records (the
non-blank records after the header) each have one field per header
column, and whose record/sentence/perplexity counts agree, the rewritten
file keeps every record's original columns unchanged, in the original
order, and appends one trailing "Perplexity" column holding `P[i]` in
record `i`. -/
theorem append_perplexity_roundtrip_amended
    (lines : List String) (text : List String) (ppls : List ℚ)
    (fns : List String) (rest : List (List String))
    (hparse : parseCsv ',' lines = fns :: rest)
    (hnd : fns.Nodup) (hnP : "Perplexity" ∉ fns)
    (hwf : ∀ r ∈ rest.filter (fun r => r ≠ []), r.length = fns.length)
    (hT : text.length = (rest.filter (fun r => r ≠ [])).length)
    (hP : ppls.length = (rest.filter (fun r => r ≠ [])).length) :
    append_perplexity_to_csv lines text ppls =
      .ok (CsvOut.mk (fns ++ ["Perplexity"])
        (((rest.filter (fun r => r ≠ [])).zip ppls).map
          (fun rp => rp.1.map Sum.inl ++ [Sum.inr rp.2]))) := by
  unfold append_perplexity_to_csv appendToParsed
  rw [hparse]
  dsimp only
  rw [writeAll_exact fns hnd hnP (rest.filter (fun r => r ≠ [])) text ppls
    hwf hT hP]
  rfl

/-- Witness for the amended C2: header `id,sentence`, two records, two
perplexities. -/
theorem append_perplexity_roundtrip_amended_witness :
    append_perplexity_to_csv ["id,sentence", "1,a", "2,b"] ["a", "b"]
        [(3 : ℚ), 4] =
      .ok (CsvOut.mk ["id", "sentence", "Perplexity"]
        [[Sum.inl "1", Sum.inl "a", Sum.inr 3],
         [Sum.inl "2", Sum.inl "b", Sum.inr 4]]) := by
  rw [append_perplexity_roundtrip_amended ["id,sentence", "1,a", "2,b"]
    ["a", "b"] [(3 : ℚ), 4] ["id", "sentence"] [["1", "a"], ["2", "b"]]
    (by decide) (by decide) (by decide) (by decide) (by decide) (by decide)]
  rfl

/-- C6: when the re-read record count, sentence count and perplexity
count are not all equal, `append_perplexity_to_csv` still succeeds — the
mismatch raises nothing — and silently writes exactly
`min(#records, #sentences, #perplexities)` data records (`zip` stops at
the shortest sequence). -/
theorem append_perplexity_truncates_to_min
    (lines : List String) (text : List String) (ppls : List ℚ)
    (fns : List String) (rest : List (List String))
    (hparse : parseCsv ',' lines = fns :: rest)
    (hwf : ∀ r ∈ rest.filter (fun r => r ≠ []), r.length ≤ fns.length)
    (hne : ¬((rest.filter (fun r => r ≠ [])).length = text.length ∧
        (rest.filter (fun r => r ≠ [])).length = ppls.length)) :
    ∃ out, append_perplexity_to_csv lines text ppls = .ok out ∧
      out.rows.length = min (rest.filter (fun r => r ≠ [])).length
        (min text.length ppls.length) := by
  unfold append_perplexity_to_csv appendToParsed
  rw [hparse]
  dsimp only
  have hkeys : ∀ x ∈ ((rest.filter (fun r => r ≠ [])).map
      (dictReadRow (α := ℚ) fns)).zip (text.zip ppls),
      ∀ kv ∈ x.1, kv.1 ∈ fns.map some := by
    intro x hx kv hkv
    rcases List.mem_map.mp (List.of_mem_zip hx).1 with ⟨r, hr, hxr⟩
    rw [← hxr] at hkv
    exact mem_keys_dictReadRow (hwf r hr) hkv
  obtain ⟨out, hout, hlen⟩ := writeAll_ok fns _ hkeys
  refine ⟨CsvOut.mk (fns ++ ["Perplexity"]) out, ?_, ?_⟩
  · rw [hout]
    rfl
  · simp only [hlen, List.length_zip, List.length_map]

/-- Witness for C6: one header column, two records, one sentence, two
perplexities — one row is written. -/
theorem append_perplexity_truncates_to_min_witness :
    ∃ out, append_perplexity_to_csv ["a", "x", "y"] ["s"] [(1 : ℚ), 2] =
        .ok out ∧ out.rows.length = 1 := by
  obtain ⟨out, h1, h2⟩ := append_perplexity_truncates_to_min
    ["a", "x", "y"] ["s"] [(1 : ℚ), 2] ["a"] [["x"], ["y"]]
    (by decide) (by decide) (by decide)
  refine ⟨out, h1, ?_⟩
  rw [h2]
  decide

/-- C10: the rewritten file content never depends on the values of the
`text` argument — only on its length, which bounds the number of rows
through `zip` (the sentences are only printed). -/
theorem append_perplexity_ignores_text_values
    (lines : List String) (t₁ t₂ : List String) (ppls : List ℚ)
    (h : t₁.length = t₂.length) :
    append_perplexity_to_csv lines t₁ ppls =
      append_perplexity_to_csv lines t₂ ppls := by
  unfold append_perplexity_to_csv appendToParsed
  cases hp : parseCsv ',' lines with
  | nil => rfl
  | cons fns rest =>
    dsimp only
    rw [writeAll_text_irrelevant (fns ++ ["Perplexity"]) _ t₁ t₂ ppls h]

/-- Witness for C10: two runs differing only in the sentence list. -/
theorem append_perplexity_ignores_text_values_witness :
    append_perplexity_to_csv ["a", "x"] ["s1"] [(5 : ℚ)] =
      append_perplexity_to_csv ["a", "x"] ["another sentence"] [(5 : ℚ)] :=
  append_perplexity_ignores_text_values ["a", "x"] ["s1"]
    ["another sentence"] [5] rfl

/-- C7: the parsed `--delimiter` flag is dropped (`main(args.config_file)`
ignores it), so runs differing only in the flag are identical; the run is
a function of the config alone, and an absent config `delimiter` key
falls back to a comma. -/
theorem cli_delimiter_no_effect (score : List String → List ℚ)
    (cfg : Config) (fileLines : List String) (d₁ d₂ : Char) :
    runCli score cfg fileLines d₁ = runCli score cfg fileLines d₂
    ∧ runCli score cfg fileLines d₁ = mainRun score cfg fileLines
    ∧ (cfg.delimiter = none →
        runCli score cfg fileLines d₁ =
          mainRun score (Config.mk cfg.csv_file cfg.csv_sentence_header
            cfg.model_name cfg.batch_size (some ',')) fileLines) := by
  refine ⟨rfl, rfl, ?_⟩
  intro h
  unfold runCli mainRun
  rw [h]
  rfl

/-- Witness for C7: a concrete config without a `delimiter` key, run with
the flag `;`. -/
theorem cli_delimiter_no_effect_witness :
    runCli (fun l => l.map (fun _ => (1 : ℚ)))
        (Config.mk "f.csv" "a" "gpt2" 1 none) ["a", "x"] ';' =
      mainRun (fun l => l.map (fun _ => (1 : ℚ)))
        (Config.mk "f.csv" "a" "gpt2" 1 (some ',')) ["a", "x"] :=
  (cli_delimiter_no_effect (fun l => l.map (fun _ => (1 : ℚ)))
    (Config.mk "f.csv" "a" "gpt2" 1 none) ["a", "x"] ';' '|').2.2 rfl

/-- C8: `append_perplexity_to_csv` has no delimiter parameter and always
re-reads through the comma parse; on the semicolon-delimited file
`a;b / x;y` the load step (delimiter `;`) sees two columns and returns
`["y"]`, while the rewrite step parses the same file as a single column
named `a;b`. -/
theorem append_uses_comma_delimiter :
    (∀ (lines text : List String) (ppls : List ℚ),
      append_perplexity_to_csv lines text ppls =
        appendToParsed (parseCsv ',' lines) text ppls)
    ∧ parseCsv ';' ["a;b", "x;y"] ≠ parseCsv ',' ["a;b", "x;y"]
    ∧ load_text_from_csv "f.csv" ["a;b", "x;y"] "b" ';' = .ok ["y"]
    ∧ append_perplexity_to_csv ["a;b", "x;y"] ["y"] [(5 : ℚ)] =
        .ok (CsvOut.mk ["a;b", "Perplexity"] [[Sum.inl "x;y", Sum.inr 5]]) :=
  ⟨fun _ _ _ => rfl, by decide, by decide, by decide⟩

end LmpplCsv
